import Mathlib

/-!
Shallow embedding of the bombhopper-rs library (src/lib.rs): the data model
for 2D platformer levels and its JSON serialization contract.  Rust `f32`
fields are modelled as rationals (the claims concern structural shape, not
floating-point rounding), `i32` as `Int`, `u8` as `Nat`.  Serialization is
modelled as a function into a JSON abstract syntax tree whose objects are
ordered association lists, mirroring the key order serde emits.
-/

namespace Bombhopper

/-- JSON values; objects are ordered key-value lists (serde emits keys in
declaration order, and flattened sub-objects merge at the flatten point). -/
inductive Json where
  | bool (b : Bool)
  | int (n : Int)
  | num (q : ℚ)
  | str (s : String)
  | arr (elems : List Json)
  | obj (fields : List (String × Json))

/-- The `Point` struct: `{ x: f32, y: f32 }`. -/
structure Point where
  x : ℚ
  y : ℚ
deriving DecidableEq

/-- `Point::new(x, y)`. -/
def Point.new (x y : ℚ) : Point := ⟨x, y⟩

/-- The `Add` impl for `Point`: component-wise addition. -/
def Point.add (p other : Point) : Point :=
  ⟨p.x + other.x, p.y + other.y⟩

/-- The `Sub` impl for `Point`: component-wise subtraction. -/
def Point.sub (p other : Point) : Point :=
  ⟨p.x - other.x, p.y - other.y⟩

/-- The `Mul<f32>` impl for `Point`: uniform scaling of both components. -/
def Point.mul (p : Point) (other : ℚ) : Point :=
  ⟨p.x * other, p.y * other⟩

/-- The derived `Default` for `Point`: both fields zero. -/
def Point.fieldDefault : Point := ⟨0, 0⟩

/-- Serde serialization of `Point`: an object with keys `x`, `y`. -/
def pointJson (p : Point) : Json :=
  Json.obj [("x", Json.num p.x), ("y", Json.num p.y)]

/-- The `AmmoType` enum. `Bomb` carries `#[serde(rename = "bullet")]`. -/
inductive AmmoType where
  | Empty
  | Bomb
  | Grenade
deriving DecidableEq

/-- The serde string for each `AmmoType` variant (`rename_all = "camelCase"`,
with `Bomb` renamed to `"bullet"`). -/
def AmmoType.serialName : AmmoType → String
  | .Empty => "empty"
  | .Bomb => "bullet"
  | .Grenade => "grenade"

/-- Serde serialization of an `AmmoType` value. -/
def ammoTypeJson (t : AmmoType) : Json := Json.str t.serialName

/-- The `Ammo` enum: `Infinite(AmmoType)` renamed `infiniteAmmo`,
`Finite(Vec<AmmoType>)` renamed `magazine`. -/
inductive Ammo where
  | Infinite (t : AmmoType)
  | Finite (mag : List AmmoType)
deriving DecidableEq

/-- The key-value pairs an `Ammo` contributes when serialized: serde encodes
the enum externally tagged, so the (renamed) variant tag is the JSON key;
`#[serde(flatten)]` merges exactly these pairs into the parent object. -/
def ammoFields : Ammo → List (String × Json)
  | .Infinite t => [("infiniteAmmo", ammoTypeJson t)]
  | .Finite mag => [("magazine", Json.arr (mag.map ammoTypeJson))]

/-- The single JSON key an `Ammo` value serializes under. -/
def ammoKey : Ammo → String
  | .Infinite _ => "infiniteAmmo"
  | .Finite _ => "magazine"

/-- The match inside `Ammo::finite_seq`: maps a (lowercased) character to an
ammo type, or fails (the `_ => return Err(...)` arm). -/
def ammoCharToType (c : Char) : Option AmmoType :=
  if c = 'b' then some AmmoType.Bomb
  else if c = 'g' then some AmmoType.Grenade
  else if c = 'e' then some AmmoType.Empty
  else none

/-- The loop of `Ammo::finite_seq` over an already-reversed character list:
pushes the mapped ammo type for each character, aborting with
`Err("Ammo Doesn't exist")` at the first invalid character (Rust
`to_ascii_lowercase` and Lean `Char.toLower` agree: both lowercase only
ASCII uppercase letters). -/
def finiteSeqChars : List Char → Except String (List AmmoType)
  | [] => Except.ok []
  | c :: cs =>
    match ammoCharToType c.toLower with
    | some t => (finiteSeqChars cs).map fun mag => t :: mag
    | none => Except.error "Ammo Doesn\x27t exist"

/-- `Ammo::finite_seq(s)`: iterates the characters of `s` in reverse
(`s.chars().rev()`) building the magazine, then wraps it in `Finite`. -/
def Ammo.finite_seq (s : String) : Except String Ammo :=
  (finiteSeqChars s.data.reverse).map Ammo.Finite

/-- The total character-to-ammo mapping the spec describes (case-insensitive
`b` to Bomb, `g` to Grenade, `e` to Empty); on valid characters it agrees
with the partial match in the source. -/
def charAmmo (c : Char) : AmmoType :=
  if c.toLower = 'b' then AmmoType.Bomb
  else if c.toLower = 'g' then AmmoType.Grenade
  else AmmoType.Empty

/-- The `Shape` enum, `#[serde(untagged)]`. -/
inductive Shape where
  | Polygon (vertices : List Point)
  | Circle (x y radius : ℚ)

/-- The key-value pairs a `Shape` contributes when serialized: untagged, so
only the variant fields appear, with no discriminator key.
`#[serde(flatten)]` merges exactly these pairs into the parent object. -/
def shapeFields : Shape → List (String × Json)
  | .Polygon vertices => [("vertices", Json.arr (vertices.map pointJson))]
  | .Circle x y radius =>
      [("x", Json.num x), ("y", Json.num y), ("radius", Json.num radius)]

/-- The `TextAlign` enum. -/
inductive TextAlign where
  | Left
  | Center
  | Right
  | Justify
deriving DecidableEq

/-- The serde string for each `TextAlign` variant (`rename_all = "camelCase"`). -/
def TextAlign.serialName : TextAlign → String
  | .Left => "left"
  | .Center => "center"
  | .Right => "right"
  | .Justify => "justify"

/-- The `Entity` enum produced by `define_entities!(Normal, Ice, Breakable,
Deadly, Bouncy)`.  The Rust `HashMap<String, String>` text field is modelled
as an ordered association list (the claims only involve singleton maps). -/
inductive Entity where
  | Player (is_static : Bool) (angle : Int) (x y : ℚ) (ammo : Ammo)
  | Door (is_static : Bool) (angle : Int) (x y : ℚ) (right_facing : Bool)
  | Text (angle : Int) (x y : ℚ) (text : List (String × String))
      (anchor : Point) (align : TextAlign) (fill_color : Int) (opacity : ℚ)
  | Paint (fill_color : Int) (opacity : ℚ) (vertices : List Point)
  | Normal (is_static : Bool) (shape : Shape)
  | Ice (is_static : Bool) (shape : Shape)
  | Breakable (is_static : Bool) (shape : Shape)
  | Deadly (is_static : Bool) (shape : Shape)
  | Bouncy (is_static : Bool) (shape : Shape)

/-- Shared serialized form of the five macro-generated material variants:
`{"type": tag, "params": {"isStatic": ..., <flattened Shape fields>}}`. -/
def materialJson (tag : String) (is_static : Bool) (shape : Shape) : Json :=
  Json.obj [("type", Json.str tag),
    ("params", Json.obj (("isStatic", Json.bool is_static) :: shapeFields shape))]

/-- Serde serialization of `Entity`: adjacently tagged
(`tag = "type"`, `content = "params"`), `rename_all = "camelCase"` on tags
and fields, `Door` renamed `"endpoint"`, `text` renamed `"copy"`, and the
`ammo` / `shape` fields flattened in place. -/
def entityJson : Entity → Json
  | .Player is_static angle x y ammo =>
      Json.obj [("type", Json.str "player"),
        ("params", Json.obj ([("isStatic", Json.bool is_static),
          ("angle", Json.int angle), ("x", Json.num x), ("y", Json.num y)] ++
          ammoFields ammo))]
  | .Door is_static angle x y right_facing =>
      Json.obj [("type", Json.str "endpoint"),
        ("params", Json.obj [("isStatic", Json.bool is_static),
          ("angle", Json.int angle), ("x", Json.num x), ("y", Json.num y),
          ("rightFacing", Json.bool right_facing)])]
  | .Text angle x y text anchor align fill_color opacity =>
      Json.obj [("type", Json.str "text"),
        ("params", Json.obj [("angle", Json.int angle),
          ("x", Json.num x), ("y", Json.num y),
          ("copy", Json.obj (text.map fun p => (p.1, Json.str p.2))),
          ("anchor", pointJson anchor),
          ("align", Json.str align.serialName),
          ("fillColor", Json.int fill_color),
          ("opacity", Json.num opacity)])]
  | .Paint fill_color opacity vertices =>
      Json.obj [("type", Json.str "paint"),
        ("params", Json.obj [("fillColor", Json.int fill_color),
          ("opacity", Json.num opacity),
          ("vertices", Json.arr (vertices.map pointJson))])]
  | .Normal is_static shape => materialJson "normal" is_static shape
  | .Ice is_static shape => materialJson "ice" is_static shape
  | .Breakable is_static shape => materialJson "breakable" is_static shape
  | .Deadly is_static shape => materialJson "deadly" is_static shape
  | .Bouncy is_static shape => materialJson "bouncy" is_static shape

/-- `Entity::new_text(pos, text)`: a `Text` with the fixed defaults. -/
def Entity.new_text (pos : Point) (text : String) : Entity :=
  Entity.Text 0 pos.x pos.y [("en", text)] (Point.new 0.5 0.5)
    TextAlign.Left 16777215 1

/-- The five material variant names, to quantify over the macro-generated
family in one statement. -/
inductive Material where
  | Normal
  | Ice
  | Breakable
  | Deadly
  | Bouncy
deriving DecidableEq

/-- The `Entity` constructor each material name expands to. -/
def Material.toEntity : Material → Bool → Shape → Entity
  | .Normal => Entity.Normal
  | .Ice => Entity.Ice
  | .Breakable => Entity.Breakable
  | .Deadly => Entity.Deadly
  | .Bouncy => Entity.Bouncy

/-- The serialized `"type"` tag of each material variant. -/
def Material.tag : Material → String
  | .Normal => "normal"
  | .Ice => "ice"
  | .Breakable => "breakable"
  | .Deadly => "deadly"
  | .Bouncy => "bouncy"

/-- The `Level` struct. `timings: [i32; 2]` is modelled as a pair. -/
structure Level where
  name : String
  timings : Int × Int
  entities : List Entity
  format_version : Nat

/-- `Level::new(name, timings)`: empty entities, `format_version: 0`. -/
def Level.new (name : String) (timings : Int × Int) : Level :=
  ⟨name, timings, [], 0⟩

/-- `Level::push(entity)`: appends to the entities vector. -/
def Level.push (l : Level) (entity : Entity) : Level :=
  { l with entities := l.entities ++ [entity] }

/-- `Level::clear()`: clears the entities vector. -/
def Level.clear (l : Level) : Level :=
  { l with entities := [] }

/-- Serde serialization of `Level` (`rename_all = "camelCase"`). -/
def levelJson (l : Level) : Json :=
  Json.obj [("name", Json.str l.name),
    ("timings", Json.arr [Json.int l.timings.1, Json.int l.timings.2]),
    ("entities", Json.arr (l.entities.map entityJson)),
    ("formatVersion", Json.int l.format_version)]

/-- A sequence of `push` calls, applied left to right. -/
def Level.pushAll (l : Level) (es : List Entity) : Level :=
  es.foldl Level.push l

/-- One mutation step of the `Level` API: `push` or `clear`. -/
inductive LevelOp where
  | push (e : Entity)
  | clear

/-- Apply one `Level` API operation. -/
def Level.applyOp (l : Level) : LevelOp → Level
  | .push e => l.push e
  | .clear => l.clear

/-- Apply a sequence of `Level` API operations, left to right. -/
def Level.applyOps (l : Level) (ops : List LevelOp) : Level :=
  ops.foldl Level.applyOp l

/-! Helper lemmas shared by the claim theorems. -/

/-- On a character list whose characters are all (case-insensitively) valid
ammo letters, the `finite_seq` loop succeeds and maps each character. -/
lemma finiteSeqChars_all_valid (L : List Char)
    (h : ∀ c ∈ L, c.toLower ∈ ['b', 'g', 'e']) :
    finiteSeqChars L = Except.ok (L.map charAmmo) := by
  induction L with
  | nil => rfl
  | cons c cs ih =>
    have hc := h c (List.mem_cons_self c cs)
    have hcs : ∀ d ∈ cs, d.toLower ∈ ['b', 'g', 'e'] :=
      fun d hd => h d (List.mem_cons_of_mem c hd)
    simp only [List.mem_cons, List.not_mem_nil, or_false] at hc
    rcases hc with hb | hg | he
    · simp [finiteSeqChars, ammoCharToType, charAmmo, hb, ih hcs, Except.map]
    · simp [finiteSeqChars, ammoCharToType, charAmmo, hg, ih hcs, Except.map]
    · simp [finiteSeqChars, ammoCharToType, charAmmo, he, ih hcs, Except.map]

/-- On a character list containing some (case-insensitively) invalid
character, the `finite_seq` loop aborts with the error message. -/
lemma finiteSeqChars_has_invalid (L : List Char)
    (h : ∃ c ∈ L, c.toLower ∉ ['b', 'g', 'e']) :
    finiteSeqChars L = Except.error "Ammo Doesn\x27t exist" := by
  induction L with
  | nil => simp at h
  | cons c cs ih =>
    rcases h with ⟨d, hd, hbad⟩
    simp only [List.mem_cons, List.not_mem_nil, or_false] at hbad
    push_neg at hbad
    rcases List.mem_cons.mp hd with rfl | hdcs
    · simp [finiteSeqChars, ammoCharToType, hbad.1, hbad.2.1, hbad.2.2]
    · have herr := ih ⟨d, hdcs, by simp [hbad.1, hbad.2.1, hbad.2.2]⟩
      cases hac : ammoCharToType c.toLower with
      | some t => simp [finiteSeqChars, hac, herr, Except.map]
      | none => simp [finiteSeqChars, hac]

/-- A sequence of pushes appends the pushed entities, in order, to the
entities list and changes nothing else. -/
lemma Level.pushAll_eq (l : Level) (es : List Entity) :
    l.pushAll es = { l with entities := l.entities ++ es } := by
  induction es generalizing l with
  | nil => simp [Level.pushAll]
  | cons e es ih =>
    have step : l.pushAll (e :: es) = (l.push e).pushAll es := rfl
    rw [step, ih (l.push e)]
    simp [Level.push]

/-- Every sequence of `push` / `clear` operations preserves the name, the
timings and the format version of a level. -/
lemma Level.applyOps_preserves (l : Level) (ops : List LevelOp) :
    (l.applyOps ops).name = l.name ∧
    (l.applyOps ops).timings = l.timings ∧
    (l.applyOps ops).format_version = l.format_version := by
  induction ops generalizing l with
  | nil => exact ⟨rfl, rfl, rfl⟩
  | cons op ops ih =>
    have step : l.applyOps (op :: ops) = (l.applyOp op).applyOps ops := rfl
    obtain ⟨ha, hb, hc⟩ := ih (l.applyOp op)
    rw [step]
    refine ⟨ha.trans ?_, hb.trans ?_, hc.trans ?_⟩ <;>
      cases op <;> rfl

/-! Claim theorems. -/

/-- C1: for every string whose characters are all, case-insensitively, in
the set b, g, e, `finite_seq` succeeds and returns a `Finite` magazine whose
stored sequence is the character-wise mapping of the string reversed, and
whose serialized JSON array is the character-wise mapping of the string to
ammo-type strings, reversed. -/
theorem finite_seq_valid_reverses (s : String)
    (h : ∀ c ∈ s.data, c.toLower ∈ ['b', 'g', 'e']) :
    Ammo.finite_seq s =
      Except.ok (Ammo.Finite ((s.data.map charAmmo).reverse)) ∧
    ammoFields (Ammo.Finite ((s.data.map charAmmo).reverse)) =
      [("magazine",
        Json.arr ((s.data.map fun c => ammoTypeJson (charAmmo c)).reverse))] := by
  have h2 : ∀ c ∈ s.data.reverse, c.toLower ∈ ['b', 'g', 'e'] :=
    fun c hc => h c (List.mem_reverse.mp hc)
  constructor
  · rw [Ammo.finite_seq, finiteSeqChars_all_valid _ h2]
    simp [Except.map, List.map_reverse]
  · simp [ammoFields, List.map_reverse, List.map_map]

/-- C1 witness: the concrete example from the claim, input "bbeg". -/
theorem finite_seq_valid_reverses_witness :
    Ammo.finite_seq "bbeg" =
      Except.ok (Ammo.Finite
        [AmmoType.Grenade, AmmoType.Empty, AmmoType.Bomb, AmmoType.Bomb]) ∧
    ammoFields (Ammo.Finite
        [AmmoType.Grenade, AmmoType.Empty, AmmoType.Bomb, AmmoType.Bomb]) =
      [("magazine", Json.arr [Json.str "grenade", Json.str "empty",
        Json.str "bullet", Json.str "bullet"])] :=
  finite_seq_valid_reverses "bbeg" (by decide)

/-- C2: for every string with at least one character that is not,
case-insensitively, b, g or e, `finite_seq` fails with the invalid-ammo
error and returns no `Finite` value at all. -/
theorem finite_seq_invalid_errors (s : String)
    (h : ∃ c ∈ s.data, c.toLower ∉ ['b', 'g', 'e']) :
    Ammo.finite_seq s = Except.error "Ammo Doesn\x27t exist" := by
  rcases h with ⟨c, hc, hbad⟩
  rw [Ammo.finite_seq,
    finiteSeqChars_has_invalid _ ⟨c, List.mem_reverse.mpr hc, hbad⟩]
  rfl

/-- C2 witness: the concrete example from the spec, input "bx". -/
theorem finite_seq_invalid_errors_witness :
    Ammo.finite_seq "bx" = Except.error "Ammo Doesn\x27t exist" :=
  finite_seq_invalid_errors "bx" (by decide)

/-- C3: serializing any `Player` flattens the contained `Ammo` into the
params object: the params keys are exactly isStatic, angle, x, y and the
single ammo key, which is infiniteAmmo exactly for `Infinite` and magazine
exactly for `Finite`, and there is no nested ammo sub-object. -/
theorem player_serialization_flattens_ammo
    (is_static : Bool) (angle : Int) (x y : ℚ) (ammo : Ammo) :
    ∃ params : List (String × Json),
      entityJson (Entity.Player is_static angle x y ammo) =
        Json.obj [("type", Json.str "player"), ("params", Json.obj params)] ∧
      params.map Prod.fst = ["isStatic", "angle", "x", "y", ammoKey ammo] ∧
      ((∃ t, ammo = Ammo.Infinite t) ↔ ammoKey ammo = "infiniteAmmo") ∧
      ((∃ mag, ammo = Ammo.Finite mag) ↔ ammoKey ammo = "magazine") ∧
      "ammo" ∉ params.map Prod.fst := by
  cases ammo with
  | Infinite t =>
    refine ⟨_, rfl, by simp [ammoFields, ammoKey], ?_, ?_, by simp [ammoFields]⟩
    · simp [ammoKey]
    · simp [ammoKey]
  | Finite mag =>
    refine ⟨_, rfl, by simp [ammoFields, ammoKey], ?_, ?_, by simp [ammoFields]⟩
    · simp [ammoKey]
    · simp [ammoKey]

/-- C4: serializing any material entity (Normal, Ice, Breakable, Deadly,
Bouncy) flattens the contained `Shape` into params with no discriminator: a
`Polygon` contributes the single key vertices holding the ordered array of
point objects, a `Circle` contributes the keys x, y, radius, each as
siblings of isStatic directly inside params. -/
theorem material_serialization_flattens_shape
    (m : Material) (is_static : Bool) (shape : Shape) :
    ∃ params : List (String × Json),
      entityJson (m.toEntity is_static shape) =
        Json.obj [("type", Json.str m.tag), ("params", Json.obj params)] ∧
      params = ("isStatic", Json.bool is_static) :: shapeFields shape ∧
      (∀ vs, shape = Shape.Polygon vs →
        shapeFields shape = [("vertices", Json.arr (vs.map pointJson))] ∧
        params.map Prod.fst = ["isStatic", "vertices"]) ∧
      (∀ x y r, shape = Shape.Circle x y r →
        shapeFields shape =
          [("x", Json.num x), ("y", Json.num y), ("radius", Json.num r)] ∧
        params.map Prod.fst = ["isStatic", "x", "y", "radius"]) ∧
      "type" ∉ params.map Prod.fst := by
  have hm : entityJson (m.toEntity is_static shape) =
      materialJson m.tag is_static shape := by
    cases m <;> rfl
  refine ⟨("isStatic", Json.bool is_static) :: shapeFields shape,
    hm.trans rfl, rfl, ?_, ?_, ?_⟩
  · rintro vs rfl
    exact ⟨rfl, by simp [shapeFields]⟩
  · rintro x y r rfl
    exact ⟨rfl, by simp [shapeFields]⟩
  · cases shape <;> simp [shapeFields]

/-- C5: the serialized entities array lists pushed entities exactly in push
order, and a cleared level serializes with an empty entities array. -/
theorem level_entities_preserve_push_order
    (n : String) (t : Int × Int) (es : List Entity) (l : Level) :
    (Level.pushAll (Level.new n t) es).entities = es ∧
    levelJson (Level.pushAll (Level.new n t) es) =
      Json.obj [("name", Json.str n),
        ("timings", Json.arr [Json.int t.1, Json.int t.2]),
        ("entities", Json.arr (es.map entityJson)),
        ("formatVersion", Json.int 0)] ∧
    (l.clear).entities = [] ∧
    levelJson l.clear =
      Json.obj [("name", Json.str l.name),
        ("timings", Json.arr [Json.int l.timings.1, Json.int l.timings.2]),
        ("entities", Json.arr []),
        ("formatVersion", Json.int l.format_version)] := by
  have hp := Level.pushAll_eq (Level.new n t) es
  refine ⟨?_, ?_, rfl, rfl⟩
  · rw [hp]
    simp [Level.new]
  · rw [hp]
    simp [levelJson, Level.new]

/-- C6: a `Door` entity serializes with tag type endpoint regardless of its
field values, with the variant fields under params in camelCase, including
rightFacing. -/
theorem door_serializes_as_endpoint
    (is_static : Bool) (angle : Int) (x y : ℚ) (right_facing : Bool) :
    entityJson (Entity.Door is_static angle x y right_facing) =
      Json.obj [("type", Json.str "endpoint"),
        ("params", Json.obj [("isStatic", Json.bool is_static),
          ("angle", Json.int angle), ("x", Json.num x), ("y", Json.num y),
          ("rightFacing", Json.bool right_facing)])] := rfl

/-- C7: `new_text(p, t)` builds a `Text` entity with angle 0, position taken
from p, locale map en to t, anchor (0.5, 0.5), align Left, fillColor
16777215, opacity 1, and it serializes the anchor as an x, y object at 0.5,
the align as "left" and the text under the key copy. -/
theorem new_text_defaults (p : Point) (t : String) :
    Entity.new_text p t =
      Entity.Text 0 p.x p.y [("en", t)] (Point.new 0.5 0.5)
        TextAlign.Left 16777215 1 ∧
    entityJson (Entity.new_text p t) =
      Json.obj [("type", Json.str "text"),
        ("params", Json.obj [("angle", Json.int 0),
          ("x", Json.num p.x), ("y", Json.num p.y),
          ("copy", Json.obj [("en", Json.str t)]),
          ("anchor", Json.obj [("x", Json.num 0.5), ("y", Json.num 0.5)]),
          ("align", Json.str "left"),
          ("fillColor", Json.int 16777215),
          ("opacity", Json.num 1)])] :=
  ⟨rfl, rfl⟩

/-- C8: `Level.new` starts with no entities and format version 0, and every
sequence of push and clear operations keeps the format version 0, which
serializes as formatVersion 0. -/
theorem format_version_always_zero
    (n : String) (t : Int × Int) (ops : List LevelOp) :
    (Level.new n t).entities = [] ∧
    (Level.new n t).format_version = 0 ∧
    (Level.applyOps (Level.new n t) ops).format_version = 0 ∧
    ∃ ents : List Json,
      levelJson (Level.applyOps (Level.new n t) ops) =
        Json.obj [("name", Json.str n),
          ("timings", Json.arr [Json.int t.1, Json.int t.2]),
          ("entities", Json.arr ents),
          ("formatVersion", Json.int 0)] := by
  obtain ⟨ha, hb, hc⟩ := Level.applyOps_preserves (Level.new n t) ops
  refine ⟨rfl, rfl, hc,
    ⟨(Level.applyOps (Level.new n t) ops).entities.map entityJson, ?_⟩⟩
  simp only [levelJson]
  rw [ha, hb, hc]
  simp [Level.new]

/-- C9: `Point` addition and subtraction are component-wise, scaling
multiplies both components by the scalar, and the default point is the
origin; all three operations are pure total functions on values. -/
theorem point_ops_componentwise (x1 y1 x2 y2 k : ℚ) :
    Point.add ⟨x1, y1⟩ ⟨x2, y2⟩ = ⟨x1 + x2, y1 + y2⟩ ∧
    Point.sub ⟨x1, y1⟩ ⟨x2, y2⟩ = ⟨x1 - x2, y1 - y2⟩ ∧
    Point.mul ⟨x1, y1⟩ k = ⟨x1 * k, y1 * k⟩ ∧
    Point.fieldDefault = (⟨0, 0⟩ : Point) :=
  ⟨rfl, rfl, rfl, rfl⟩

/-- C10: `finite_seq` errors exactly when some character is,
case-insensitively, outside the set b, g, e; in particular the empty string
succeeds with a zero-round magazine which, flattened into a `Player`,
serializes as a magazine key holding an empty array. -/
theorem finite_seq_error_iff_invalid_char
    (s : String) (is_static : Bool) (angle : Int) (x y : ℚ) :
    ((∃ e, Ammo.finite_seq s = Except.error e) ↔
      ∃ c ∈ s.data, c.toLower ∉ ['b', 'g', 'e']) ∧
    Ammo.finite_seq "" = Except.ok (Ammo.Finite []) ∧
    entityJson (Entity.Player is_static angle x y (Ammo.Finite [])) =
      Json.obj [("type", Json.str "player"),
        ("params", Json.obj [("isStatic", Json.bool is_static),
          ("angle", Json.int angle), ("x", Json.num x), ("y", Json.num y),
          ("magazine", Json.arr [])])] := by
  refine ⟨⟨?_, ?_⟩, rfl, rfl⟩
  · rintro ⟨e, he⟩
    by_contra hno
    push_neg at hno
    have hok := finiteSeqChars_all_valid s.data.reverse
      (fun c hc => hno c (List.mem_reverse.mp hc))
    rw [Ammo.finite_seq, hok] at he
    simp [Except.map] at he
  · rintro ⟨c, hc, hbad⟩
    exact ⟨_, by
      rw [Ammo.finite_seq,
        finiteSeqChars_has_invalid _ ⟨c, List.mem_reverse.mpr hc, hbad⟩]
      rfl⟩

end Bombhopper
